import Mathlib

/-!
Verification of the kubectl-gather gathering engine against its specification.

The definitions below are a shallow embedding of the Go source:
 - `pkg/gather` gather.go: `resourceInfo.Name`, `Gatherer.keyFromName`,
   `Gatherer.keyFromResource`, `Gatherer.addResource`, `Gatherer.shouldGather`,
   `Gatherer.gatherResources` (the paginated listing loop),
   `Gatherer.gatherNamespaces`, `Gatherer.prepare`, `Gatherer.Gather`,
   `Gatherer.Count`.
 - `pkg/gather/output.go`: `OutputDirectory.CreateNamespacedResource`,
   `OutputDirectory.CreateClusterResource`, `createDirectory`, `createFile`.
 - `pkg/gather/workqueue.go`: `WorkQueue.Queue`, `WorkQueue.Close`,
   `WorkQueue.Start` / `setFirstError` / `Wait`.

Interaction with the cluster is modelled by oracles: a listing unit consumes a
script of server responses (one per `listResources` call), point-gets are a
function from the requested name to a result, and writing a dump to disk is a
function from the object key to success or failure.  Machine integers play no
role in the modelled code, so counters are plain `Nat`.
-/

namespace KubectlGather

/-- Embeds `resourceInfo` (gather.go): a discovered API resource, i.e. the
tuple (group, version, plural resource name, namespaced?). -/
structure ResourceInfo where
  group : String
  version : String
  resource : String
  namespaced : Bool
deriving Repr, DecidableEq

/-- Embeds `resourceInfo.Name` (gather.go): the display name used as the
directory segment; the plural name when the group is empty, otherwise
group + "/" + plural name. -/
def ResourceInfo.name (r : ResourceInfo) : String :=
  if r.group = "" then r.resource else r.group ++ "/" ++ r.resource

/-- Embeds `types.NamespacedName`: the parts of a fetched object the engine
reads (`item.GetNamespace()` and `item.GetName()`). -/
structure NamespacedName where
  ns : String
  name : String
deriving Repr, DecidableEq

/-- Embeds `Gatherer.keyFromName` (gather.go): the canonical de-dup key,
`fmt.Sprintf("namespaces/%s/%s/%s", ...)` for namespaced resources and
`fmt.Sprintf("cluster/%s/%s", ...)` for cluster-scoped resources. -/
def keyFromName (r : ResourceInfo) (n : NamespacedName) : String :=
  if r.namespaced then
    "namespaces/" ++ n.ns ++ "/" ++ r.name ++ "/" ++ n.name
  else
    "cluster/" ++ r.name ++ "/" ++ n.name

/-- Embeds `Gatherer.keyFromResource` (gather.go): builds the key from the
object's own namespace and name. -/
def keyFromResource (r : ResourceInfo) (item : NamespacedName) : String :=
  keyFromName r item

/-! Output paths (output.go).  Go's `filepath.Join` drops empty components,
joins the rest with "/" and cleans the result; on the already-clean segments
used by the output sink the clean step is the identity, so `filepathJoin`
models it as dropping empty components and interleaving "/". -/

/-- Joins path components with "/". -/
def joinParts : List String → String
  | [] => ""
  | [p] => p
  | p :: q :: rest => p ++ "/" ++ joinParts (q :: rest)

/-- Model of Go `filepath.Join` on clean components. -/
def filepathJoin (parts : List String) : String :=
  joinParts (parts.filter (fun p => !(p == "")))

/-- Embeds `createDirectory` (output.go): `filepath.Join(args...)` (the
`MkdirAll` side effect has no bearing on the resulting path). -/
def createDirectory (args : List String) : String :=
  filepathJoin args

/-- Embeds `createFile` (output.go): the created file's path,
`filepath.Join(dir, name)`. -/
def createFile (dir : String) (name : String) : String :=
  filepathJoin [dir, name]

/-- Embeds `OutputDirectory.CreateNamespacedResource` (output.go): the path of
the dump of a namespaced object,
`createFile(createDirectory(base, "namespaces", namespace, resource), name + ".yaml")`. -/
def createNamespacedResourcePath (base ns resource name : String) : String :=
  createFile (createDirectory [base, "namespaces", ns, resource]) (name ++ ".yaml")

/-- Embeds `OutputDirectory.CreateClusterResource` (output.go): the path of the
dump of a cluster-scoped object,
`createFile(createDirectory(base, "cluster", resource), name + ".yaml")`. -/
def createClusterResourcePath (base resource name : String) : String :=
  createFile (createDirectory [base, "cluster", resource]) (name ++ ".yaml")

/-- Embeds `metav1.APIResource` as far as `shouldGather` reads it: plural name,
namespaced flag and verbs. -/
structure APIResource where
  name : String
  namespaced : Bool
  verbs : List String
deriving Repr, DecidableEq

/-- Embeds `Gatherer.shouldGather` (gather.go).  `nss` is
`g.opts.Namespaces`, `group` is the parsed group of the resource list. -/
def shouldGather (nss : List String) (group : String) (res : APIResource) : Bool :=
  if ¬ ("list" ∈ res.verbs) then
    false
  else if nss.length ≠ 0 ∧ ¬ res.namespaced then
    false
  else if nss.length ≠ 0 ∧ res.name = "packagemanifests" ∧ group = "packages.operators.coreos.com" then
    false
  else if res.name = "events" ∧ group = "" then
    false
  else if res.name = "componentstatuses" ∧ group = "" then
    false
  else
    true

/-! Helper lemmas about strings and path joining. -/

theorem str_length_zero {s : String} (h : s.length = 0) : s = "" := by
  cases s with
  | mk data =>
    cases data with
    | nil => rfl
    | cons c cs => simp [String.length] at h

theorem str_append_ne_right (a : String) {b : String} (h : b ≠ "") : a ++ b ≠ "" := by
  intro hc
  apply h
  apply str_length_zero
  have hlen := congrArg String.length hc
  rw [String.length_append] at hlen
  have h0 : ("" : String).length = 0 := rfl
  rw [h0] at hlen
  omega

theorem str_append_ne_left {a : String} (b : String) (h : a ≠ "") : a ++ b ≠ "" := by
  intro hc
  apply h
  apply str_length_zero
  have hlen := congrArg String.length hc
  rw [String.length_append] at hlen
  have h0 : ("" : String).length = 0 := rfl
  rw [h0] at hlen
  omega

theorem filter_nonempty_cons {p : String} (l : List String) (h : p ≠ "") :
    (p :: l).filter (fun q => !(q == "")) = p :: l.filter (fun q => !(q == "")) := by
  simp [List.filter_cons, h]

/-- C2: for every gathered object, the de-dup key and the output path agree
with the canonical form.  A namespaced object has key
"namespaces/{ns}/{display-name}/{name}" and is written to
{base}/namespaces/{namespace}/{display-name}/{object-name}.yaml; a
cluster-scoped object has key "cluster/{display-name}/{name}" and is written
to {base}/cluster/{display-name}/{object-name}.yaml; the display name is the
plural resource name when the group is empty and group + "/" + plural name
otherwise. -/
theorem key_and_path_agree (base : String) (r : ResourceInfo) (item : NamespacedName)
    (hbase : base ≠ "") (hdisp : r.name ≠ "")
    (hns : r.namespaced = true → item.ns ≠ "") :
    (r.namespaced = true →
      keyFromResource r item = "namespaces/" ++ item.ns ++ "/" ++ r.name ++ "/" ++ item.name ∧
      createNamespacedResourcePath base item.ns r.name item.name
        = base ++ "/" ++ keyFromResource r item ++ ".yaml") ∧
    (r.namespaced = false →
      keyFromResource r item = "cluster/" ++ r.name ++ "/" ++ item.name ∧
      createClusterResourcePath base r.name item.name
        = base ++ "/" ++ keyFromResource r item ++ ".yaml") ∧
    (r.group = "" → r.name = r.resource) ∧
    (r.group ≠ "" → r.name = r.group ++ "/" ++ r.resource) := by
  refine ⟨?_, ?_, ?_, ?_⟩
  · intro h
    have hns' := hns h
    constructor
    · simp [keyFromResource, keyFromName, h]
    · rw [createNamespacedResourcePath, createDirectory, filepathJoin,
        filter_nonempty_cons _ hbase,
        filter_nonempty_cons _ (by decide : ("namespaces" : String) ≠ ""),
        filter_nonempty_cons _ hns',
        filter_nonempty_cons _ hdisp]
      simp only [List.filter_nil]
      rw [joinParts, joinParts, joinParts, joinParts]
      rw [createFile, filepathJoin,
        filter_nonempty_cons _
          (str_append_ne_left _ (str_append_ne_left _ hbase)),
        filter_nonempty_cons _
          (str_append_ne_right _ (by decide : (".yaml" : String) ≠ ""))]
      simp only [List.filter_nil]
      rw [joinParts]
      simp [keyFromResource, keyFromName, h, joinParts]
      simp [String.append_assoc]
  · intro h
    constructor
    · simp [keyFromResource, keyFromName, h]
    · rw [createClusterResourcePath, createDirectory, filepathJoin,
        filter_nonempty_cons _ hbase,
        filter_nonempty_cons _ (by decide : ("cluster" : String) ≠ ""),
        filter_nonempty_cons _ hdisp]
      simp only [List.filter_nil]
      rw [joinParts, joinParts, joinParts]
      rw [createFile, filepathJoin,
        filter_nonempty_cons _
          (str_append_ne_left _ (str_append_ne_left _ hbase)),
        filter_nonempty_cons _
          (str_append_ne_right _ (by decide : (".yaml" : String) ≠ ""))]
      simp only [List.filter_nil]
      rw [joinParts]
      simp [keyFromResource, keyFromName, h, joinParts]
      simp [String.append_assoc]
  · intro h
    simp [ResourceInfo.name, h]
  · intro h
    simp [ResourceInfo.name, h]

/-- Witness for `key_and_path_agree` at a concrete namespaced resource and a
concrete cluster-scoped resource. -/
theorem key_and_path_agree_witness :
    createNamespacedResourcePath "out" "web" "apps/deployments" "api"
      = "out" ++ "/" ++ keyFromResource ⟨"apps", "v1", "deployments", true⟩ ⟨"web", "api"⟩ ++ ".yaml" ∧
    createClusterResourcePath "out" "nodes" "node1"
      = "out" ++ "/" ++ keyFromResource ⟨"", "v1", "nodes", false⟩ ⟨"", "node1"⟩ ++ ".yaml" := by
  constructor
  · exact ((key_and_path_agree "out" ⟨"apps", "v1", "deployments", true⟩ ⟨"web", "api"⟩
      (by decide) (by decide) (fun _ => by decide)).1 rfl).2
  · exact ((key_and_path_agree "out" ⟨"", "v1", "nodes", false⟩ ⟨"", "node1"⟩
      (by decide) (by decide) (fun h => by cases h)).2.1 rfl).2

/-- C3: `shouldGather` accepts a discovered resource exactly when its verbs
contain "list"; when a namespace filter is set, the resource is namespaced and
is not packagemanifests of group packages.operators.coreos.com; the resource is
not core-group events; and the resource is not core-group componentstatuses. -/
theorem shouldGather_characterization (nss : List String) (group : String) (res : APIResource) :
    shouldGather nss group res = true ↔
      ("list" ∈ res.verbs ∧
       (nss ≠ [] →
         res.namespaced = true ∧
         ¬ (group = "packages.operators.coreos.com" ∧ res.name = "packagemanifests")) ∧
       ¬ (group = "" ∧ res.name = "events") ∧
       ¬ (group = "" ∧ res.name = "componentstatuses")) := by
  rw [shouldGather]
  have hlen : nss.length ≠ 0 ↔ nss ≠ [] := by
    rw [not_iff_not]
    exact List.length_eq_zero
  split_ifs with h1 h2 h3 h4 h5 <;>
    simp only [Bool.false_eq_true, false_iff, true_iff, hlen] at * <;>
    tauto

/-! The Gatherer's shared state and the gather-stage loop (gather.go). -/

/-- The parts of `Gatherer` state the modelled operations touch: the de-dup
set `g.resources` (as a list, newest insertion first) plus the observable
effects of a run: the keys whose object dump was written to disk, and the keys
passed to an addon's Inspect. -/
structure GState where
  resources : List String
  files : List String
  inspected : List String
deriving Repr, DecidableEq

/-- The state at `Gather()` start: `resources: make(map[string]struct{})`,
nothing written, nothing inspected. -/
def emptyGState : GState := ⟨[], [], []⟩

/-- Embeds `Gatherer.addResource` (gather.go): mutex-guarded test-and-insert;
returns true exactly when the key was not yet in the set. -/
def addResource (s : GState) (key : String) : Bool × GState :=
  if key ∈ s.resources then
    (false, s)
  else
    (true, { s with resources := key :: s.resources })

/-- Embeds `Gatherer.Count` (gather.go): `len(g.resources)`. -/
def Count (s : GState) : Nat :=
  s.resources.length

/-- Effect of `dumpResource` on the insertion winner: the object file exists
iff the write succeeded (`ok`); a failed dump is only logged
(`g.log.Warnf("Cannot dump ...")`) and leaves no object file. -/
def recordFile (s : GState) (key : String) (ok : Bool) : GState :=
  if ok then { s with files := key :: s.files } else s

/-- Effect of calling the registered addon's Inspect on the insertion winner
(`hasAddon` is `addon != nil`); an Inspect error is only logged. -/
def recordInspect (s : GState) (key : String) (hasAddon : Bool) : GState :=
  if hasAddon then { s with inspected := key :: s.inspected } else s

/-- Embeds the item loop of `Gatherer.gatherResources` (gather.go): for each
listed item compute its key; if `addResource` returns false skip it; otherwise
increment the count, attempt the dump, and invoke the addon's Inspect when one
is registered for the resource. -/
def processItems (r : ResourceInfo) (dumpOk : String → Bool) (hasAddon : Bool) :
    List NamespacedName → GState → Nat → GState × Nat
  | [], s, count => (s, count)
  | item :: rest, s, count =>
    let key := keyFromResource r item
    match addResource s key with
    | (false, s1) => processItems r dumpOk hasAddon rest s1 count
    | (true, s1) =>
      processItems r dumpOk hasAddon rest
        (recordInspect (recordFile s1 key (dumpOk key)) key hasAddon) (count + 1)

/-- One server response to a `listResources` call: a page of items with a
continuation token, or an error (with its `IsResourceExpired` classification). -/
inductive ListRes where
  | ok (items : List NamespacedName) (contTok : String)
  | fail (expired : Bool)
deriving Repr, DecidableEq

/-- Why a listing loop ended. -/
inductive StopReason where
  | scriptEnded
  | listEnded
  | warned
deriving Repr, DecidableEq

/-- Result of one `gatherResources` work unit: final state, the per-resource
count, the (limit, continue) of every `listResources` call issued in order,
how the loop stopped, and how many full-list fallbacks were taken. -/
structure RunOut where
  state : GState
  count : Nat
  reqs : List (Nat × String)
  stop : StopReason
  fallbacks : Nat
deriving Repr, DecidableEq

/-- Embeds `listResourcesLimit` (gather.go). -/
def listResourcesLimit : Nat := 100

/-- Embeds the page loop of `Gatherer.gatherResources` (gather.go).  Each
recursive step performs one `listResources` call with the current options
(limit, continue token), consuming the next scripted response.  On an error
response: if `opts.Continue == ""` or the error is not "resource expired", a
warning is logged and the loop stops; otherwise the loop falls back to a full
list, continuing with limit 0 and empty token, so the next step performs the
retry request `(0, "")` — if that retry fails the loop stops through the same
`opts.Continue == ""` test (exactly the Go control flow, where the inner retry
failure breaks unconditionally), and if it succeeds its page is processed like
any other.  On a success response the items are processed and the loop
advances to the returned continuation token, stopping when it is empty.
`scriptEnded` is the model artifact for an environment that supplies no
further response. -/
def gatherPages (r : ResourceInfo) (dumpOk : String → Bool) (hasAddon : Bool) :
    List ListRes → Nat → String → GState → Nat → RunOut
  | [], _, _, s, count => ⟨s, count, [], .scriptEnded, 0⟩
  | .ok items tok2 :: rest, limit, tok, s, count =>
    let pr := processItems r dumpOk hasAddon items s count
    if tok2 = "" then
      ⟨pr.1, pr.2, [(limit, tok)], .listEnded, 0⟩
    else
      let out := gatherPages r dumpOk hasAddon rest limit tok2 pr.1 pr.2
      { out with reqs := (limit, tok) :: out.reqs }
  | .fail expired :: rest, limit, tok, s, count =>
    if tok = "" ∨ expired = false then
      ⟨s, count, [(limit, tok)], .warned, 0⟩
    else
      let out := gatherPages r dumpOk hasAddon rest 0 "" s count
      { out with reqs := (limit, tok) :: out.reqs, fallbacks := out.fallbacks + 1 }

/-- Embeds `Gatherer.gatherResources` (gather.go): start with
`opts := ListOptions{Limit: listResourcesLimit}` and `count := 0`, then loop. -/
def gatherResources (r : ResourceInfo) (dumpOk : String → Bool) (hasAddon : Bool)
    (script : List ListRes) (s : GState) : RunOut :=
  gatherPages r dumpOk hasAddon script listResourcesLimit "" s 0

/-- The listing strategy exactly as the spec words it (spec 4.2 Stage B step 1
and 4.3), with explicit "first page" and "this call is the one-shot full-list
retry" flags instead of the code's `opts.Continue == ""` test: listing starts
with page size 100; if the first page fails for any reason the unit logs a
warning and stops; if a subsequent page fails with a resource-version-expired
error the unit retries exactly once with an unpaginated full list (limit 0,
empty continue token); any other mid-stream error, or a failure of the
full-list retry itself, terminates the listing; the unit advances page by page
until the server returns an empty continuation token. -/
def specListingPages (r : ResourceInfo) (dumpOk : String → Bool) (hasAddon : Bool) :
    List ListRes → Bool → Bool → Nat → String → GState → Nat → RunOut
  | [], _, _, _, _, s, count => ⟨s, count, [], .scriptEnded, 0⟩
  | .ok items tok2 :: rest, _, _, limit, tok, s, count =>
    let pr := processItems r dumpOk hasAddon items s count
    if tok2 = "" then
      ⟨pr.1, pr.2, [(limit, tok)], .listEnded, 0⟩
    else
      let out := specListingPages r dumpOk hasAddon rest false false limit tok2 pr.1 pr.2
      { out with reqs := (limit, tok) :: out.reqs }
  | .fail expired :: rest, firstPage, retrying, limit, tok, s, count =>
    if firstPage = true ∨ retrying = true ∨ expired = false then
      ⟨s, count, [(limit, tok)], .warned, 0⟩
    else
      let out := specListingPages r dumpOk hasAddon rest false true 0 "" s count
      { out with reqs := (limit, tok) :: out.reqs, fallbacks := out.fallbacks + 1 }

/-- Entry point of the spec-worded listing strategy: first page, not a retry,
page size 100, no continuation token. -/
def specListing (r : ResourceInfo) (dumpOk : String → Bool) (hasAddon : Bool)
    (script : List ListRes) (s : GState) : RunOut :=
  specListingPages r dumpOk hasAddon script true false 100 "" s 0

/-! Helper lemmas for the loop model. -/

theorem addResource_mem {s : GState} {key : String} (h : key ∈ s.resources) :
    addResource s key = (false, s) := by
  simp [addResource, h]

theorem addResource_new {s : GState} {key : String} (h : ¬ key ∈ s.resources) :
    addResource s key = (true, { s with resources := key :: s.resources }) := by
  simp [addResource, h]

theorem recordFile_resources (s : GState) (key : String) (ok : Bool) :
    (recordFile s key ok).resources = s.resources := by
  rw [recordFile]
  split <;> rfl

theorem recordInspect_resources (s : GState) (key : String) (hasAddon : Bool) :
    (recordInspect s key hasAddon).resources = s.resources := by
  rw [recordInspect]
  split <;> rfl

theorem recordFile_inspected (s : GState) (key : String) (ok : Bool) :
    (recordFile s key ok).inspected = s.inspected := by
  rw [recordFile]
  split <;> rfl

theorem recordInspect_files (s : GState) (key : String) (hasAddon : Bool) :
    (recordInspect s key hasAddon).files = s.files := by
  rw [recordInspect]
  split <;> rfl

/-- The loop invariant that makes the code's `opts.Continue == ""` test
equivalent to the spec's "first page or the one-shot retry": at the top of the
loop the continue token is empty exactly on the first iteration and on the
retry iteration right after a fallback. -/
theorem gatherPages_eq_specPages (r : ResourceInfo) (dumpOk : String → Bool) (hasAddon : Bool)
    (script : List ListRes) :
    ∀ (firstPage retrying : Bool) (limit : Nat) (tok : String) (s : GState) (count : Nat),
      (tok = "" ↔ (firstPage = true ∨ retrying = true)) →
      gatherPages r dumpOk hasAddon script limit tok s count
        = specListingPages r dumpOk hasAddon script firstPage retrying limit tok s count := by
  induction script with
  | nil =>
    intro firstPage retrying limit tok s count _
    rfl
  | cons res rest ih =>
    intro firstPage retrying limit tok s count h
    cases res with
    | ok items tok2 =>
      simp only [gatherPages, specListingPages]
      by_cases h2 : tok2 = ""
      · simp [h2]
      · simp only [h2, if_neg h2]
        rw [ih false false limit tok2 _ _ (by simp [h2])]
    | fail expired =>
      have hc : (tok = "" ∨ expired = false)
          ↔ (firstPage = true ∨ retrying = true ∨ expired = false) := by
        constructor
        · rintro (ht | he)
          · rcases h.mp ht with hf | hr
            · exact Or.inl hf
            · exact Or.inr (Or.inl hr)
          · exact Or.inr (Or.inr he)
        · rintro (hf | hr | he)
          · exact Or.inl (h.mpr (Or.inl hf))
          · exact Or.inl (h.mpr (Or.inr hr))
          · exact Or.inr he
      simp only [gatherPages, specListingPages]
      by_cases hcl : tok = "" ∨ expired = false
      · rw [if_pos hcl, if_pos (hc.mp hcl)]
      · rw [if_neg hcl, if_neg (fun hx => hcl (hc.mpr hx))]
        rw [ih false true 0 "" s count (by simp)]

/-- C4: for every (descriptor, namespace) work unit the listing behaves as the
spec describes — it starts with page size 100 (`listResourcesLimit`); a
first-page failure logs a warning and stops the unit; a subsequent-page
failure with a resource-version-expired error triggers exactly one retry with
an unpaginated full list (limit 0, empty continue token); any other mid-stream
error, or failure of the retry itself, terminates the listing; and the unit
advances page by page until the continuation token is empty.  Stated as: the
embedded loop coincides with `specListing`, the direct transcription of the
spec's words, on every response script. -/
theorem listing_strategy_matches_spec (r : ResourceInfo) (dumpOk : String → Bool)
    (hasAddon : Bool) (script : List ListRes) (s : GState) :
    gatherResources r dumpOk hasAddon script s = specListing r dumpOk hasAddon script s ∧
    listResourcesLimit = 100 := by
  constructor
  · exact gatherPages_eq_specPages r dumpOk hasAddon script true false listResourcesLimit "" s 0
      (by simp)
  · rfl

/-- The count bookkeeping of one unit: every increment coincides with an
insertion into the de-dup set. -/
theorem processItems_count (r : ResourceInfo) (dumpOk : String → Bool) (hasAddon : Bool)
    (items : List NamespacedName) :
    ∀ (s : GState) (count : Nat),
      (processItems r dumpOk hasAddon items s count).2 + s.resources.length
        = count + (processItems r dumpOk hasAddon items s count).1.resources.length := by
  induction items with
  | nil =>
    intro s count
    simp [processItems]
  | cons item rest ih =>
    intro s count
    by_cases hm : keyFromResource r item ∈ s.resources
    · simp only [processItems, addResource_mem hm]
      exact ih s count
    · simp only [processItems, addResource_new hm]
      have h2 := ih
        (recordInspect
          (recordFile { s with resources := keyFromResource r item :: s.resources }
            (keyFromResource r item) (dumpOk (keyFromResource r item)))
          (keyFromResource r item) hasAddon) (count + 1)
      rw [recordInspect_resources, recordFile_resources] at h2
      simp only [List.length_cons] at h2
      omega

theorem gatherPages_count (r : ResourceInfo) (dumpOk : String → Bool) (hasAddon : Bool)
    (script : List ListRes) :
    ∀ (limit : Nat) (tok : String) (s : GState) (count : Nat),
      (gatherPages r dumpOk hasAddon script limit tok s count).count + s.resources.length
        = count + (gatherPages r dumpOk hasAddon script limit tok s count).state.resources.length := by
  induction script with
  | nil =>
    intro limit tok s count
    simp [gatherPages]
  | cons res rest ih =>
    intro limit tok s count
    cases res with
    | ok items tok2 =>
      simp only [gatherPages]
      by_cases h2 : tok2 = ""
      · simp only [h2, if_pos rfl]
        exact processItems_count r dumpOk hasAddon items s count
      · simp only [if_neg h2]
        have h1 := processItems_count r dumpOk hasAddon items s count
        have h3 := ih limit tok2 (processItems r dumpOk hasAddon items s count).1
          (processItems r dumpOk hasAddon items s count).2
        omega
    | fail expired =>
      simp only [gatherPages]
      by_cases hcl : tok = "" ∨ expired = false
      · rw [if_pos hcl]
      · rw [if_neg hcl]
        exact ih 0 "" s count

/-- C5 (amended): the running per-resource count is not reset when the
full-list fallback is taken; instead, the de-dup set prevents double counting:
the count a unit reports equals the number of keys the unit newly inserted
into the de-dup set, so objects already gathered during the partial paginated
pass are skipped by `addResource` and counted exactly once. -/
theorem count_equals_new_insertions (r : ResourceInfo) (dumpOk : String → Bool)
    (hasAddon : Bool) (script : List ListRes) (s : GState) :
    (gatherResources r dumpOk hasAddon script s).count + Count s
      = Count (gatherResources r dumpOk hasAddon script s).state := by
  have h := gatherPages_count r dumpOk hasAddon script listResourcesLimit "" s 0
  simpa [gatherResources, Count] using h

/-- Modelled from the spec: spec 4.2 Stage B step 1 says the fallback
"resets the local count"; this twin of `gatherPages` is identical to it except
that the count is set back to 0 when the fallback is taken.  The code does not
contain this reset. -/
def resetCountPages (r : ResourceInfo) (dumpOk : String → Bool) (hasAddon : Bool) :
    List ListRes → Nat → String → GState → Nat → RunOut
  | [], _, _, s, count => ⟨s, count, [], .scriptEnded, 0⟩
  | .ok items tok2 :: rest, limit, tok, s, count =>
    let pr := processItems r dumpOk hasAddon items s count
    if tok2 = "" then
      ⟨pr.1, pr.2, [(limit, tok)], .listEnded, 0⟩
    else
      let out := resetCountPages r dumpOk hasAddon rest limit tok2 pr.1 pr.2
      { out with reqs := (limit, tok) :: out.reqs }
  | .fail expired :: rest, limit, tok, s, count =>
    if tok = "" ∨ expired = false then
      ⟨s, count, [(limit, tok)], .warned, 0⟩
    else
      let out := resetCountPages r dumpOk hasAddon rest 0 "" s 0
      { out with reqs := (limit, tok) :: out.reqs, fallbacks := out.fallbacks + 1 }

/-- The spec-worded unit with the count reset, from the initial options. -/
def resetCountRun (r : ResourceInfo) (dumpOk : String → Bool) (hasAddon : Bool)
    (script : List ListRes) (s : GState) : RunOut :=
  resetCountPages r dumpOk hasAddon script listResourcesLimit "" s 0

/-- A concrete resource for counterexample runs: core-group pods. -/
def podsInfo : ResourceInfo := ⟨"", "v1", "pods", true⟩

/-- A script in which page one returns objects a and b with a continuation
token, the continuation request fails with "resource version expired", and the
full-list retry returns a, b and c. -/
def expiredScript : List ListRes :=
  [.ok [⟨"ns1", "a"⟩, ⟨"ns1", "b"⟩] "tok1",
   .fail true,
   .ok [⟨"ns1", "a"⟩, ⟨"ns1", "b"⟩, ⟨"ns1", "c"⟩] ""]

/-- Counterexample to C5 as stated: on `expiredScript` the unit takes exactly
one full-list fallback, and the code reports a count of 3 (a, b from the
partial pass plus the new c; the repeats of a and b are skipped by the de-dup
set, not by a reset), whereas the spec's "reset the running count" behavior,
`resetCountRun`, would report 1.  The count is therefore not reset. -/
theorem count_reset_counterexample :
    (gatherResources podsInfo (fun _ => true) false expiredScript emptyGState).fallbacks = 1 ∧
    (gatherResources podsInfo (fun _ => true) false expiredScript emptyGState).count = 3 ∧
    (resetCountRun podsInfo (fun _ => true) false expiredScript emptyGState).count = 1 := by
  refine ⟨by decide, by decide, by decide⟩

/-! The prepare stage (gather.go): namespace point-gets and discovery. -/

/-- Result of the namespace point-get in `gatherNamespaces`, classified the
way the code classifies it: success, `errors.IsNotFound`, or any other
error (fatal). -/
inductive GetRes where
  | found
  | notFound
  | fatal
deriving Repr, DecidableEq

/-- The resource info `gatherNamespaces` builds for the namespaces GVR:
`resourceInfo{GroupVersionResource: gvr}` with the zero-valued `Namespaced`
field, so namespace objects are keyed and dumped as cluster-scoped
("cluster/namespaces/{name}"). -/
def nsResourceInfo : ResourceInfo := ⟨"", "v1", "namespaces", false⟩

/-- Embeds `Gatherer.gatherNamespaces` (gather.go): point-get each requested
namespace in order.  A NotFound is skipped with a debug log; any other error
is fatal (`return nil, err`, keeping the state mutations already made); a
found namespace is keyed, inserted into the de-dup set, dumped by the
insertion winner (a dump failure is only logged), and appended to the returned
list of available namespaces. -/
def gatherNamespaces (get : String → GetRes) (dumpOk : String → Bool) :
    List String → GState → Option (List String) × GState
  | [], s => (some [], s)
  | ns :: rest, s =>
    match get ns with
    | .fatal => (none, s)
    | .notFound => gatherNamespaces get dumpOk rest s
    | .found =>
      let key := keyFromResource nsResourceInfo ⟨"", ns⟩
      let s2 :=
        match addResource s key with
        | (false, s1) => s1
        | (true, s1) => recordFile s1 key (dumpOk key)
      match gatherNamespaces get dumpOk rest s2 with
      | (none, sF) => (none, sF)
      | (some found, sF) => (some (ns :: found), sF)

/-- Outcome of `Gatherer.prepare` (gather.go): whether it returned an error,
the (resource, namespace) pairs queued on the gather queue, and the state
after the namespace dumps. -/
structure PrepareOut where
  fatal : Bool
  queued : List (ResourceInfo × String)
  state : GState
deriving Repr, DecidableEq

/-- Embeds `Gatherer.prepare` (gather.go).  `disc` is the outcome of
`listAPIResources` (none models a discovery failure; the list is already
filtered by `shouldGather` in the code).  With a namespace filter: a fatal
lookup propagates; an empty found list returns success with no work; otherwise
one unit is queued per (resource, found namespace).  Without a filter the
namespace list is the single all-namespaces sentinel `""`
(`metav1.NamespaceAll`). -/
def prepare (get : String → GetRes) (dumpOk : String → Bool)
    (disc : Option (List ResourceInfo)) (nssOpt : List String) (s : GState) : PrepareOut :=
  if nssOpt.length > 0 then
    match gatherNamespaces get dumpOk nssOpt s with
    | (none, s1) => ⟨true, [], s1⟩
    | (some found, s1) =>
      if found.length = 0 then
        ⟨false, [], s1⟩
      else
        match disc with
        | none => ⟨true, [], s1⟩
        | some rs => ⟨false, rs.flatMap (fun r => found.map (fun n => (r, n))), s1⟩
  else
    match disc with
    | none => ⟨true, [], s⟩
    | some rs => ⟨false, rs.map (fun r => (r, "")), s⟩

/-- One gather-stage work unit as queued by prepare, together with the
environment it runs against: the resource, whether an addon is registered for
its display name, and the script of server responses its listing consumes. -/
structure UnitSpec where
  r : ResourceInfo
  hasAddon : Bool
  script : List ListRes
deriving Repr

/-- One linearization of the gather stage.  The mutex around `addResource`
makes each test-and-insert atomic and only the insertion winner dumps and
inspects a key, so the per-key effects of any concurrent interleaving of the
queued units coincide with those of a sequential order; `runUnits` executes
the units in one such order. -/
def runUnits (dumpOk : String → Bool) : List UnitSpec → GState → GState
  | [], s => s
  | u :: rest, s =>
    runUnits dumpOk rest (gatherResources u.r dumpOk u.hasAddon u.script s).state

/-- A full run of `Gather()` (gather.go): prepare from the empty state, then
run exactly the queued units, with `addonFor` giving the addon registry lookup
`g.addons[r.Name()] != nil` and `scriptFor` the server's responses for each
(resource, namespace) listing. -/
def gatherRun (get : String → GetRes) (dumpOk : String → Bool)
    (disc : Option (List ResourceInfo)) (nssOpt : List String)
    (addonFor : String → Bool) (scriptFor : ResourceInfo → String → List ListRes) : GState :=
  let p := prepare get dumpOk disc nssOpt emptyGState
  runUnits dumpOk (p.queued.map (fun q => ⟨q.1, addonFor q.1.name, scriptFor q.1 q.2⟩)) p.state

/-! Invariant machinery shared by the claims about the de-dup set. -/

/-- Combined effect of dump and inspect on the insertion winner. -/
theorem record_state (s : GState) (key : String) (d a : Bool) :
    recordInspect (recordFile s key d) key a
      = ⟨s.resources,
         if d then key :: s.files else s.files,
         if a then key :: s.inspected else s.inspected⟩ := by
  cases d <;> cases a <;> simp [recordFile, recordInspect]

/-- Effect of the dump alone (the `gatherNamespaces` winner path, where no
addon is involved). -/
theorem recordFile_state (s : GState) (key : String) (d : Bool) :
    recordFile s key d = ⟨s.resources, if d then key :: s.files else s.files, s.inspected⟩ := by
  cases d <;> simp [recordFile]

/-- Structural invariants of the shared state: each key is inserted at most
once, object files and inspections exist only for inserted keys, and there is
at most one file and one inspection per key. -/
def StateOk (s : GState) : Prop :=
  s.resources.Nodup ∧ s.files.Nodup ∧ s.inspected.Nodup ∧
  (∀ k ∈ s.files, k ∈ s.resources) ∧ (∀ k ∈ s.inspected, k ∈ s.resources)

theorem stateOk_insert {s : GState} {key : String} (h : StateOk s)
    (hm : ¬ key ∈ s.resources) (d a : Bool) :
    StateOk (recordInspect (recordFile { s with resources := key :: s.resources } key d) key a) := by
  obtain ⟨h1, h2, h3, h4, h5⟩ := h
  rw [record_state]
  refine ⟨List.nodup_cons.mpr ⟨hm, h1⟩, ?_, ?_, ?_, ?_⟩
  · cases d with
    | false => exact h2
    | true => exact List.nodup_cons.mpr ⟨fun hk => hm (h4 key hk), h2⟩
  · cases a with
    | false => exact h3
    | true => exact List.nodup_cons.mpr ⟨fun hk => hm (h5 key hk), h3⟩
  · intro k hk
    cases d with
    | false => exact List.mem_cons_of_mem _ (h4 k hk)
    | true =>
      rcases List.mem_cons.mp hk with hke | hkm
      · exact hke ▸ List.mem_cons_self _ _
      · exact List.mem_cons_of_mem _ (h4 k hkm)
  · intro k hk
    cases a with
    | false => exact List.mem_cons_of_mem _ (h5 k hk)
    | true =>
      rcases List.mem_cons.mp hk with hke | hkm
      · exact hke ▸ List.mem_cons_self _ _
      · exact List.mem_cons_of_mem _ (h5 k hkm)

theorem processItems_stateOk (r : ResourceInfo) (dumpOk : String → Bool) (hasAddon : Bool)
    (items : List NamespacedName) :
    ∀ (s : GState) (count : Nat), StateOk s →
      StateOk (processItems r dumpOk hasAddon items s count).1 := by
  induction items with
  | nil =>
    intro s count h
    simpa [processItems] using h
  | cons item rest ih =>
    intro s count h
    by_cases hm : keyFromResource r item ∈ s.resources
    · simp only [processItems, addResource_mem hm]
      exact ih s count h
    · simp only [processItems, addResource_new hm]
      exact ih _ _ (stateOk_insert h hm _ _)

theorem gatherPages_stateOk (r : ResourceInfo) (dumpOk : String → Bool) (hasAddon : Bool)
    (script : List ListRes) :
    ∀ (limit : Nat) (tok : String) (s : GState) (count : Nat), StateOk s →
      StateOk (gatherPages r dumpOk hasAddon script limit tok s count).state := by
  induction script with
  | nil =>
    intro limit tok s count h
    simpa [gatherPages] using h
  | cons res rest ih =>
    intro limit tok s count h
    cases res with
    | ok items tok2 =>
      simp only [gatherPages]
      by_cases h2 : tok2 = ""
      · simp only [h2, if_pos rfl]
        exact processItems_stateOk r dumpOk hasAddon items s count h
      · simp only [if_neg h2]
        exact ih limit tok2 _ _ (processItems_stateOk r dumpOk hasAddon items s count h)
    | fail expired =>
      simp only [gatherPages]
      by_cases hcl : tok = "" ∨ expired = false
      · rw [if_pos hcl]
        exact h
      · rw [if_neg hcl]
        exact ih 0 "" s count h

theorem runUnits_stateOk (dumpOk : String → Bool) (units : List UnitSpec) :
    ∀ s : GState, StateOk s → StateOk (runUnits dumpOk units s) := by
  induction units with
  | nil =>
    intro s h
    simpa [runUnits] using h
  | cons u rest ih =>
    intro s h
    simp only [runUnits]
    exact ih _ (gatherPages_stateOk u.r dumpOk u.hasAddon u.script _ _ _ _ h)

theorem gatherNamespaces_stateOk (get : String → GetRes) (dumpOk : String → Bool)
    (nss : List String) :
    ∀ s : GState, StateOk s → StateOk (gatherNamespaces get dumpOk nss s).2 := by
  induction nss with
  | nil =>
    intro s h
    simpa [gatherNamespaces] using h
  | cons ns rest ih =>
    intro s h
    cases hg : get ns with
    | fatal =>
      simpa [gatherNamespaces, hg] using h
    | notFound =>
      simp only [gatherNamespaces, hg]
      exact ih s h
    | found =>
      simp only [gatherNamespaces, hg]
      by_cases hm : keyFromResource nsResourceInfo ⟨"", ns⟩ ∈ s.resources
      · rw [addResource_mem hm]
        have h2 := ih s h
        cases hrec : gatherNamespaces get dumpOk rest s with
        | mk o sF =>
          rw [hrec] at h2
          cases o <;> simpa using h2
      · rw [addResource_new hm]
        have hin : StateOk (recordFile
            { s with resources := keyFromResource nsResourceInfo ⟨"", ns⟩ :: s.resources }
            (keyFromResource nsResourceInfo ⟨"", ns⟩)
            (dumpOk (keyFromResource nsResourceInfo ⟨"", ns⟩))) := by
          have h0 := stateOk_insert h hm
            (dumpOk (keyFromResource nsResourceInfo ⟨"", ns⟩)) false
          rw [record_state] at h0
          rw [recordFile_state]
          simpa using h0
        have h2 := ih _ hin
        cases hrec : gatherNamespaces get dumpOk rest (recordFile
            { s with resources := keyFromResource nsResourceInfo ⟨"", ns⟩ :: s.resources }
            (keyFromResource nsResourceInfo ⟨"", ns⟩)
            (dumpOk (keyFromResource nsResourceInfo ⟨"", ns⟩))) with
        | mk o sF =>
          rw [hrec] at h2
          cases o <;> simpa using h2

/-! Runs in which every attempted dump succeeds: the object files mirror the
de-dup set exactly. -/

theorem processItems_files_eq (r : ResourceInfo) (dumpOk : String → Bool) (hasAddon : Bool)
    (items : List NamespacedName) (hdump : ∀ k, dumpOk k = true) :
    ∀ (s : GState) (count : Nat), s.files = s.resources →
      (processItems r dumpOk hasAddon items s count).1.files
        = (processItems r dumpOk hasAddon items s count).1.resources := by
  induction items with
  | nil =>
    intro s count h
    simpa [processItems] using h
  | cons item rest ih =>
    intro s count h
    by_cases hm : keyFromResource r item ∈ s.resources
    · simp only [processItems, addResource_mem hm]
      exact ih s count h
    · simp only [processItems, addResource_new hm]
      apply ih
      rw [record_state]
      simp [hdump (keyFromResource r item), h]

theorem gatherPages_files_eq (r : ResourceInfo) (dumpOk : String → Bool) (hasAddon : Bool)
    (script : List ListRes) (hdump : ∀ k, dumpOk k = true) :
    ∀ (limit : Nat) (tok : String) (s : GState) (count : Nat), s.files = s.resources →
      (gatherPages r dumpOk hasAddon script limit tok s count).state.files
        = (gatherPages r dumpOk hasAddon script limit tok s count).state.resources := by
  induction script with
  | nil =>
    intro limit tok s count h
    simpa [gatherPages] using h
  | cons res rest ih =>
    intro limit tok s count h
    cases res with
    | ok items tok2 =>
      simp only [gatherPages]
      by_cases h2 : tok2 = ""
      · simp only [h2, if_pos rfl]
        exact processItems_files_eq r dumpOk hasAddon items hdump s count h
      · simp only [if_neg h2]
        exact ih limit tok2 _ _ (processItems_files_eq r dumpOk hasAddon items hdump s count h)
    | fail expired =>
      simp only [gatherPages]
      by_cases hcl : tok = "" ∨ expired = false
      · rw [if_pos hcl]
        exact h
      · rw [if_neg hcl]
        exact ih 0 "" s count h

theorem runUnits_files_eq (dumpOk : String → Bool) (units : List UnitSpec)
    (hdump : ∀ k, dumpOk k = true) :
    ∀ s : GState, s.files = s.resources →
      (runUnits dumpOk units s).files = (runUnits dumpOk units s).resources := by
  induction units with
  | nil =>
    intro s h
    simpa [runUnits] using h
  | cons u rest ih =>
    intro s h
    simp only [runUnits]
    exact ih _ (gatherPages_files_eq u.r dumpOk u.hasAddon u.script hdump _ _ _ _ h)

/-! Characterization of the namespace lookup loop. -/

/-- State update of `gatherNamespaces` for one found namespace (proof
abbreviation for the code's winner/loser branches: the winner attempts the
dump, the loser leaves the state as is). -/
def nsStep (dumpOk : String → Bool) (ns : String) (s : GState) : GState :=
  match addResource s (keyFromResource nsResourceInfo ⟨"", ns⟩) with
  | (false, s1) => s1
  | (true, s1) =>
    recordFile s1 (keyFromResource nsResourceInfo ⟨"", ns⟩)
      (dumpOk (keyFromResource nsResourceInfo ⟨"", ns⟩))

theorem nsStep_of_mem {dumpOk : String → Bool} {ns : String} {s : GState}
    (hm : keyFromResource nsResourceInfo ⟨"", ns⟩ ∈ s.resources) :
    nsStep dumpOk ns s = s := by
  unfold nsStep
  rw [addResource_mem hm]

theorem nsStep_of_new {dumpOk : String → Bool} {ns : String} {s : GState}
    (hm : ¬ keyFromResource nsResourceInfo ⟨"", ns⟩ ∈ s.resources) :
    nsStep dumpOk ns s
      = recordFile { s with resources := keyFromResource nsResourceInfo ⟨"", ns⟩ :: s.resources }
          (keyFromResource nsResourceInfo ⟨"", ns⟩)
          (dumpOk (keyFromResource nsResourceInfo ⟨"", ns⟩)) := by
  unfold nsStep
  rw [addResource_new hm]

theorem gatherNamespaces_found_step (get : String → GetRes) (dumpOk : String → Bool)
    (ns : String) (rest : List String) (s : GState) (hg : get ns = GetRes.found) :
    gatherNamespaces get dumpOk (ns :: rest) s
      = ((gatherNamespaces get dumpOk rest (nsStep dumpOk ns s)).1.map (fun f => ns :: f),
         (gatherNamespaces get dumpOk rest (nsStep dumpOk ns s)).2) := by
  simp only [gatherNamespaces, hg, nsStep]
  cases hrec : gatherNamespaces get dumpOk rest
      (match addResource s (keyFromResource nsResourceInfo ⟨"", ns⟩) with
       | (false, s1) => s1
       | (true, s1) =>
         recordFile s1 (keyFromResource nsResourceInfo ⟨"", ns⟩)
           (dumpOk (keyFromResource nsResourceInfo ⟨"", ns⟩))) with
  | mk o sF =>
    cases o <;> simp

theorem gatherNamespaces_fatal_iff (get : String → GetRes) (dumpOk : String → Bool)
    (nss : List String) :
    ∀ s : GState,
      ((gatherNamespaces get dumpOk nss s).1 = none ↔ ∃ n ∈ nss, get n = GetRes.fatal) := by
  induction nss with
  | nil =>
    intro s
    simp [gatherNamespaces]
  | cons ns rest ih =>
    intro s
    cases hg : get ns with
    | fatal =>
      simp only [gatherNamespaces, hg]
      constructor
      · intro _
        exact ⟨ns, List.mem_cons_self _ _, hg⟩
      · intro _
        trivial
    | notFound =>
      simp only [gatherNamespaces, hg]
      rw [ih s]
      constructor
      · rintro ⟨n, hn, hf⟩
        exact ⟨n, List.mem_cons_of_mem _ hn, hf⟩
      · rintro ⟨n, hn, hf⟩
        rcases List.mem_cons.mp hn with he | hmem
        · rw [he, hg] at hf
          cases hf
        · exact ⟨n, hmem, hf⟩
    | found =>
      rw [gatherNamespaces_found_step get dumpOk ns rest s hg]
      constructor
      · intro hnone
        simp only [Option.map_eq_none'] at hnone
        rcases (ih (nsStep dumpOk ns s)).mp hnone with ⟨n, hn, hf⟩
        exact ⟨n, List.mem_cons_of_mem _ hn, hf⟩
      · rintro ⟨n, hn, hf⟩
        rcases List.mem_cons.mp hn with he | hmem
        · rw [he, hg] at hf
          cases hf
        · simp only [Option.map_eq_none']
          exact (ih (nsStep dumpOk ns s)).mpr ⟨n, hmem, hf⟩

theorem gatherNamespaces_no_fatal (get : String → GetRes) (dumpOk : String → Bool)
    (nss : List String) :
    ∀ s : GState, (∀ n ∈ nss, get n ≠ GetRes.fatal) →
      (gatherNamespaces get dumpOk nss s).1
        = some (nss.filter (fun n => get n == GetRes.found)) := by
  induction nss with
  | nil =>
    intro s _
    simp [gatherNamespaces]
  | cons ns rest ih =>
    intro s h
    have hns := h ns (List.mem_cons_self _ _)
    have hrest : ∀ n ∈ rest, get n ≠ GetRes.fatal :=
      fun n hn => h n (List.mem_cons_of_mem _ hn)
    cases hg : get ns with
    | fatal => exact absurd hg hns
    | notFound =>
      simp only [gatherNamespaces, hg]
      rw [ih s hrest]
      simp [List.filter_cons, hg]
    | found =>
      rw [gatherNamespaces_found_step get dumpOk ns rest s hg]
      rw [List.filter_cons]
      simp [ih _ hrest, hg]

theorem gatherNamespaces_all_notFound (get : String → GetRes) (dumpOk : String → Bool)
    (nss : List String) :
    ∀ s : GState, (∀ n ∈ nss, get n = GetRes.notFound) →
      gatherNamespaces get dumpOk nss s = (some [], s) := by
  induction nss with
  | nil =>
    intro s _
    rfl
  | cons ns rest ih =>
    intro s h
    have hg := h ns (List.mem_cons_self _ _)
    simp only [gatherNamespaces, hg]
    exact ih s (fun n hn => h n (List.mem_cons_of_mem _ hn))

/-- Every key whose dump succeeds has its object file: preserved by the
namespace loop (the insertion winner writes the file right away). -/
def DumpedInv (dumpOk : String → Bool) (s : GState) : Prop :=
  ∀ k ∈ s.resources, dumpOk k = true → k ∈ s.files

theorem nsStep_dumpedInv {dumpOk : String → Bool} {ns : String} {s : GState}
    (h : DumpedInv dumpOk s) : DumpedInv dumpOk (nsStep dumpOk ns s) := by
  by_cases hm : keyFromResource nsResourceInfo ⟨"", ns⟩ ∈ s.resources
  · rw [nsStep_of_mem hm]
    exact h
  · rw [nsStep_of_new hm, recordFile_state]
    intro k hk hd
    rcases List.mem_cons.mp hk with he | hmem
    · subst he
      simp [hd]
    · have := h k hmem hd
      by_cases hdk : dumpOk (keyFromResource nsResourceInfo ⟨"", ns⟩) = true <;>
        simp [hdk, this]

theorem nsStep_resources_mono (dumpOk : String → Bool) (ns : String) (s : GState) :
    s.resources ⊆ (nsStep dumpOk ns s).resources := by
  by_cases hm : keyFromResource nsResourceInfo ⟨"", ns⟩ ∈ s.resources
  · rw [nsStep_of_mem hm]
    exact fun k hk => hk
  · rw [nsStep_of_new hm, recordFile_state]
    exact fun k hk => List.mem_cons_of_mem _ hk

theorem nsStep_files_mono (dumpOk : String → Bool) (ns : String) (s : GState) :
    s.files ⊆ (nsStep dumpOk ns s).files := by
  by_cases hm : keyFromResource nsResourceInfo ⟨"", ns⟩ ∈ s.resources
  · rw [nsStep_of_mem hm]
    exact fun k hk => hk
  · rw [nsStep_of_new hm, recordFile_state]
    by_cases hdk : dumpOk (keyFromResource nsResourceInfo ⟨"", ns⟩) = true
    · simp only [hdk, if_pos rfl]
      exact fun k hk => List.mem_cons_of_mem _ hk
    · simp [hdk]

theorem nsStep_key_mem (dumpOk : String → Bool) (ns : String) (s : GState) :
    keyFromResource nsResourceInfo ⟨"", ns⟩ ∈ (nsStep dumpOk ns s).resources := by
  by_cases hm : keyFromResource nsResourceInfo ⟨"", ns⟩ ∈ s.resources
  · rw [nsStep_of_mem hm]
    exact hm
  · rw [nsStep_of_new hm, recordFile_state]
    exact List.mem_cons_self _ _

theorem gatherNamespaces_dumpedInv (get : String → GetRes) (dumpOk : String → Bool)
    (nss : List String) :
    ∀ s : GState, DumpedInv dumpOk s →
      DumpedInv dumpOk (gatherNamespaces get dumpOk nss s).2 := by
  induction nss with
  | nil =>
    intro s h
    exact h
  | cons ns rest ih =>
    intro s h
    cases hg : get ns with
    | fatal => simpa [gatherNamespaces, hg] using h
    | notFound =>
      simp only [gatherNamespaces, hg]
      exact ih s h
    | found =>
      rw [gatherNamespaces_found_step get dumpOk ns rest s hg]
      exact ih _ (nsStep_dumpedInv h)

theorem gatherNamespaces_resources_mono (get : String → GetRes) (dumpOk : String → Bool)
    (nss : List String) :
    ∀ s : GState, s.resources ⊆ (gatherNamespaces get dumpOk nss s).2.resources := by
  induction nss with
  | nil =>
    intro s
    exact fun k hk => hk
  | cons ns rest ih =>
    intro s
    cases hg : get ns with
    | fatal => simp [gatherNamespaces, hg]
    | notFound =>
      simp only [gatherNamespaces, hg]
      exact ih s
    | found =>
      rw [gatherNamespaces_found_step get dumpOk ns rest s hg]
      exact fun k hk => ih _ (nsStep_resources_mono dumpOk ns s hk)

theorem gatherNamespaces_found_mem (get : String → GetRes) (dumpOk : String → Bool)
    (nss : List String) :
    ∀ s : GState, (∀ n ∈ nss, get n ≠ GetRes.fatal) → ∀ n ∈ nss, get n = GetRes.found →
      keyFromResource nsResourceInfo ⟨"", n⟩
        ∈ (gatherNamespaces get dumpOk nss s).2.resources := by
  induction nss with
  | nil =>
    intro s _ n hn
    cases hn
  | cons ns rest ih =>
    intro s h n hn hfound
    have hrest : ∀ m ∈ rest, get m ≠ GetRes.fatal :=
      fun m hm => h m (List.mem_cons_of_mem _ hm)
    rcases List.mem_cons.mp hn with he | hmem
    · subst he
      rw [gatherNamespaces_found_step get dumpOk n rest s hfound]
      exact gatherNamespaces_resources_mono get dumpOk rest _ (nsStep_key_mem dumpOk n s)
    · cases hg : get ns with
      | fatal => exact absurd hg (h ns (List.mem_cons_self _ _))
      | notFound =>
        simp only [gatherNamespaces, hg]
        exact ih s hrest n hmem hfound
      | found =>
        rw [gatherNamespaces_found_step get dumpOk ns rest s hg]
        exact ih _ hrest n hmem hfound

theorem gatherNamespaces_files_eq (get : String → GetRes) (dumpOk : String → Bool)
    (nss : List String) (hdump : ∀ k, dumpOk k = true) :
    ∀ s : GState, s.files = s.resources →
      (gatherNamespaces get dumpOk nss s).2.files
        = (gatherNamespaces get dumpOk nss s).2.resources := by
  induction nss with
  | nil =>
    intro s h
    exact h
  | cons ns rest ih =>
    intro s h
    cases hg : get ns with
    | fatal => simpa [gatherNamespaces, hg] using h
    | notFound =>
      simp only [gatherNamespaces, hg]
      exact ih s h
    | found =>
      rw [gatherNamespaces_found_step get dumpOk ns rest s hg]
      apply ih
      by_cases hm : keyFromResource nsResourceInfo ⟨"", ns⟩ ∈ s.resources
      · rw [nsStep_of_mem hm]
        exact h
      · rw [nsStep_of_new hm, recordFile_state]
        simp [hdump (keyFromResource nsResourceInfo ⟨"", ns⟩), h]

/-! Prepare-level lemmas and the claims about prepare and the full run. -/

theorem prepare_state (get : String → GetRes) (dumpOk : String → Bool)
    (disc : Option (List ResourceInfo)) (nssOpt : List String) (s : GState) :
    (prepare get dumpOk disc nssOpt s).state
      = if nssOpt.length > 0 then (gatherNamespaces get dumpOk nssOpt s).2 else s := by
  rw [prepare.eq_def]
  by_cases hpos : nssOpt.length > 0
  · simp only [if_pos hpos]
    cases hng : gatherNamespaces get dumpOk nssOpt s with
    | mk o s1 =>
      cases o with
      | none => rfl
      | some found =>
        by_cases hf : found.length = 0
        · simp [hf]
        · cases disc <;> simp [hf]
  · simp only [if_neg hpos]
    cases disc <;> rfl

theorem stateOk_empty : StateOk emptyGState := by
  refine ⟨?_, ?_, ?_, ?_, ?_⟩ <;> simp [emptyGState]

theorem prepare_stateOk (get : String → GetRes) (dumpOk : String → Bool)
    (disc : Option (List ResourceInfo)) (nssOpt : List String) {s : GState}
    (h : StateOk s) : StateOk (prepare get dumpOk disc nssOpt s).state := by
  rw [prepare_state]
  by_cases hpos : nssOpt.length > 0
  · rw [if_pos hpos]
    exact gatherNamespaces_stateOk get dumpOk nssOpt s h
  · rw [if_neg hpos]
    exact h

theorem prepare_files_eq (get : String → GetRes) (dumpOk : String → Bool)
    (disc : Option (List ResourceInfo)) (nssOpt : List String) {s : GState}
    (hdump : ∀ k, dumpOk k = true) (h : s.files = s.resources) :
    (prepare get dumpOk disc nssOpt s).state.files
      = (prepare get dumpOk disc nssOpt s).state.resources := by
  rw [prepare_state]
  by_cases hpos : nssOpt.length > 0
  · rw [if_pos hpos]
    exact gatherNamespaces_files_eq get dumpOk nssOpt hdump s h
  · rw [if_neg hpos]
    exact h

/-- C8: during prepare with a non-empty namespace filter, each requested
namespace is looked up by a point-get; NotFound results are skipped; when
every lookup is NotFound, prepare succeeds having produced no work and an
untouched state (Gather returns nil); a non-NotFound lookup error, or a
discovery failure once discovery is reached, makes prepare fail — the error
returns straight out of Gather (gather.go lines 168-170) — with no gather work
queued, leaving only the namespace dumps already completed; and every found
namespace is inserted into the de-dup set and dumped (its file exists whenever
the dump write succeeds). -/
theorem prepare_namespace_filter (get : String → GetRes) (dumpOk : String → Bool)
    (disc : Option (List ResourceInfo)) (nssOpt : List String) :
    ((nssOpt ≠ [] ∧ ∀ n ∈ nssOpt, get n = GetRes.notFound) →
        prepare get dumpOk disc nssOpt emptyGState = ⟨false, [], emptyGState⟩) ∧
    ((prepare get dumpOk disc nssOpt emptyGState).fatal = true ↔
        ((nssOpt ≠ [] ∧ ∃ n ∈ nssOpt, get n = GetRes.fatal) ∨
         (disc = none ∧ (nssOpt = [] ∨
           ((∀ n ∈ nssOpt, get n ≠ GetRes.fatal) ∧ ∃ n ∈ nssOpt, get n = GetRes.found))))) ∧
    ((prepare get dumpOk disc nssOpt emptyGState).fatal = true →
        (prepare get dumpOk disc nssOpt emptyGState).queued = []) ∧
    ((∀ n ∈ nssOpt, get n ≠ GetRes.fatal) → ∀ n ∈ nssOpt, get n = GetRes.found →
        keyFromResource nsResourceInfo ⟨"", n⟩
            ∈ (prepare get dumpOk disc nssOpt emptyGState).state.resources ∧
        (dumpOk (keyFromResource nsResourceInfo ⟨"", n⟩) = true →
          keyFromResource nsResourceInfo ⟨"", n⟩
              ∈ (prepare get dumpOk disc nssOpt emptyGState).state.files)) := by
  refine ⟨?_, ?_, ?_, ?_⟩
  · rintro ⟨hne, hnf⟩
    have hpos : nssOpt.length > 0 := List.length_pos.mpr hne
    rw [prepare.eq_def, if_pos hpos, gatherNamespaces_all_notFound get dumpOk nssOpt emptyGState hnf]
    rfl
  · by_cases hnil : nssOpt = []
    · subst hnil
      rw [prepare.eq_def]
      simp only [List.length_nil, gt_iff_lt, lt_self_iff_false, if_false]
      cases disc <;> simp
    · have hpos : nssOpt.length > 0 := List.length_pos.mpr hnil
      rw [prepare.eq_def, if_pos hpos]
      by_cases hfat : ∃ n ∈ nssOpt, get n = GetRes.fatal
      · have hnone : (gatherNamespaces get dumpOk nssOpt emptyGState).1 = none :=
          (gatherNamespaces_fatal_iff get dumpOk nssOpt emptyGState).mpr hfat
        cases hng : gatherNamespaces get dumpOk nssOpt emptyGState with
        | mk o s1 =>
          rw [hng] at hnone
          subst hnone
          constructor
          · intro _
            exact Or.inl ⟨hnil, hfat⟩
          · intro _
            rfl
      · have hnofat : ∀ n ∈ nssOpt, get n ≠ GetRes.fatal := by
          intro n hn hf
          exact hfat ⟨n, hn, hf⟩
        have hsome := gatherNamespaces_no_fatal get dumpOk nssOpt emptyGState hnofat
        cases hng : gatherNamespaces get dumpOk nssOpt emptyGState with
        | mk o s1 =>
          rw [hng] at hsome
          subst hsome
          by_cases hfound : nssOpt.filter (fun n => get n == GetRes.found) = []
          · have hF0 : (nssOpt.filter (fun n => get n == GetRes.found)).length = 0 := by
              rw [hfound]
              rfl
            simp only [hF0, eq_self_iff_true, if_true]
            constructor
            · intro hx
              exact (Bool.false_ne_true hx).elim
            · rintro (⟨_, n, hn, hf⟩ | ⟨_, hcase⟩)
              · exact absurd hf (hnofat n hn)
              · rcases hcase with he | ⟨_, n, hn, hf⟩
                · exact absurd he hnil
                · have hmem2 : n ∈ nssOpt.filter (fun m => get m == GetRes.found) :=
                    List.mem_filter.mpr ⟨hn, by simp [hf]⟩
                  rw [hfound] at hmem2
                  exact absurd hmem2 (List.not_mem_nil n)
          · have hlen : ¬ (nssOpt.filter (fun n => get n == GetRes.found)).length = 0 := by
              intro h0
              exact hfound (List.length_eq_zero.mp h0)
            simp only [if_neg hlen]
            have hex : ∃ n ∈ nssOpt, get n = GetRes.found := by
              rcases List.exists_mem_of_ne_nil _ hfound with ⟨n, hn⟩
              rcases List.mem_filter.mp hn with ⟨hmem, hp⟩
              exact ⟨n, hmem, by simpa using hp⟩
            cases disc with
            | none =>
              constructor
              · intro _
                exact Or.inr ⟨rfl, Or.inr ⟨hnofat, hex⟩⟩
              · intro _
                rfl
            | some rs =>
              constructor
              · intro hx
                exact (Bool.false_ne_true hx).elim
              · rintro (⟨_, n, hn, hf⟩ | ⟨hd, _⟩)
                · exact absurd hf (hnofat n hn)
                · exact Option.noConfusion hd
  · by_cases hnil : nssOpt = []
    · subst hnil
      rw [prepare.eq_def]
      simp only [List.length_nil, gt_iff_lt, lt_self_iff_false, if_false]
      cases disc <;> simp
    · have hpos : nssOpt.length > 0 := List.length_pos.mpr hnil
      rw [prepare.eq_def, if_pos hpos]
      cases hng : gatherNamespaces get dumpOk nssOpt emptyGState with
      | mk o s1 =>
        cases o with
        | none => intro _; rfl
        | some found =>
          by_cases hf : found.length = 0
          · simp [hf]
          · cases disc with
            | none => simp [hf]
            | some rs => simp [hf]
  · intro hnofat n hn hfound
    rw [prepare_state]
    have hpos : nssOpt.length > 0 :=
      List.length_pos.mpr (by rintro rfl; cases hn)
    rw [if_pos hpos]
    constructor
    · exact gatherNamespaces_found_mem get dumpOk nssOpt emptyGState hnofat n hn hfound
    · intro hd
      have hinv : DumpedInv dumpOk (gatherNamespaces get dumpOk nssOpt emptyGState).2 :=
        gatherNamespaces_dumpedInv get dumpOk nssOpt emptyGState (by intro k hk; cases hk)
      exact hinv _ (gatherNamespaces_found_mem get dumpOk nssOpt emptyGState hnofat n hn hfound) hd

/-- Witness for `prepare_namespace_filter`: with namespaces ["a", "b"] where
"a" exists and "b" does not, prepare inserts and dumps cluster/namespaces/a. -/
theorem prepare_namespace_filter_witness :
    keyFromResource nsResourceInfo ⟨"", "a"⟩
        ∈ (prepare (fun n => if n = "a" then GetRes.found else GetRes.notFound)
            (fun _ => true) (some [podsInfo]) ["a", "b"] emptyGState).state.resources ∧
    keyFromResource nsResourceInfo ⟨"", "a"⟩
        ∈ (prepare (fun n => if n = "a" then GetRes.found else GetRes.notFound)
            (fun _ => true) (some [podsInfo]) ["a", "b"] emptyGState).state.files := by
  have h := (prepare_namespace_filter (fun n => if n = "a" then GetRes.found else GetRes.notFound)
    (fun _ => true) (some [podsInfo]) ["a", "b"]).2.2.2
    (by decide) "a" (by decide) (by decide)
  exact ⟨h.1, h.2 rfl⟩

/-- C1 (amended): in every run of Gather(), each ObjectKey is inserted into
the de-dup set at most once (the final set has no duplicate entry), only the
insertion winner writes the object dump, and whenever every attempted dump
write succeeds the final contents of the set exactly enumerate the object
files written, with the number of files equal to Count().  (When a dump write
fails, the code logs a warning and keeps the key in the set with no file on
disk — see the counterexample — which is what forces the all-dumps-succeed
hypothesis on the enumeration part.) -/
theorem dedup_set_enumerates_files (get : String → GetRes) (dumpOk : String → Bool)
    (disc : Option (List ResourceInfo)) (nssOpt : List String)
    (addonFor : String → Bool) (scriptFor : ResourceInfo → String → List ListRes)
    (hdump : ∀ k, dumpOk k = true) :
    (gatherRun get dumpOk disc nssOpt addonFor scriptFor).resources.Nodup ∧
    (gatherRun get dumpOk disc nssOpt addonFor scriptFor).files
      = (gatherRun get dumpOk disc nssOpt addonFor scriptFor).resources ∧
    (gatherRun get dumpOk disc nssOpt addonFor scriptFor).files.length
      = Count (gatherRun get dumpOk disc nssOpt addonFor scriptFor) := by
  have hok : StateOk (prepare get dumpOk disc nssOpt emptyGState).state :=
    prepare_stateOk get dumpOk disc nssOpt stateOk_empty
  have hfe : (prepare get dumpOk disc nssOpt emptyGState).state.files
      = (prepare get dumpOk disc nssOpt emptyGState).state.resources :=
    prepare_files_eq get dumpOk disc nssOpt hdump rfl
  have hfinOk := runUnits_stateOk dumpOk
    ((prepare get dumpOk disc nssOpt emptyGState).queued.map
      (fun q => ⟨q.1, addonFor q.1.name, scriptFor q.1 q.2⟩)) _ hok
  have hfin := runUnits_files_eq dumpOk
    ((prepare get dumpOk disc nssOpt emptyGState).queued.map
      (fun q => ⟨q.1, addonFor q.1.name, scriptFor q.1 q.2⟩)) hdump _ hfe
  simp only [gatherRun]
  exact ⟨hfinOk.1, hfin, congrArg List.length hfin⟩

/-- Witness for `dedup_set_enumerates_files`: a run listing the same object
twice dumps it once, and the file list mirrors the de-dup set. -/
theorem dedup_set_enumerates_files_witness :
    (gatherRun (fun _ => GetRes.notFound) (fun _ => true) (some [podsInfo]) []
        (fun _ => false) (fun _ _ => [.ok [⟨"ns1", "a"⟩, ⟨"ns1", "a"⟩] ""])).files
      = (gatherRun (fun _ => GetRes.notFound) (fun _ => true) (some [podsInfo]) []
          (fun _ => false) (fun _ _ => [.ok [⟨"ns1", "a"⟩, ⟨"ns1", "a"⟩] ""])).resources ∧
    Count (gatherRun (fun _ => GetRes.notFound) (fun _ => true) (some [podsInfo]) []
        (fun _ => false) (fun _ _ => [.ok [⟨"ns1", "a"⟩, ⟨"ns1", "a"⟩] ""])) = 1 := by
  constructor
  · exact (dedup_set_enumerates_files (fun _ => GetRes.notFound) (fun _ => true)
      (some [podsInfo]) [] (fun _ => false)
      (fun _ _ => [.ok [⟨"ns1", "a"⟩, ⟨"ns1", "a"⟩] ""]) (fun _ => rfl)).2.1
  · decide

/-- Counterexample to C1 as stated: a run in which the only dump write fails.
The key stays in the de-dup set (Count() = 1) but no object file exists, so
the set does not enumerate the files on disk and |files| = 0 ≠ Count(). -/
theorem dedup_dump_failure_counterexample :
    Count (gatherRun (fun _ => GetRes.notFound) (fun _ => false) (some [podsInfo]) []
        (fun _ => false) (fun _ _ => [.ok [⟨"ns1", "d"⟩] ""])) = 1 ∧
    (gatherRun (fun _ => GetRes.notFound) (fun _ => false) (some [podsInfo]) []
        (fun _ => false) (fun _ _ => [.ok [⟨"ns1", "d"⟩] ""])).files = [] := by
  refine ⟨by decide, by decide⟩

/-- C10: in every run of Gather(), a registered addon's Inspect is invoked at
most once per unique ObjectKey — Inspect runs only on the branch where
addResource returned true, so duplicate items across pages, across the
full-list fallback retry, or across work units are neither re-dumped nor
re-inspected: the list of inspected keys has no duplicates and every inspected
key is in the de-dup set. -/
theorem inspect_at_most_once_per_key (get : String → GetRes) (dumpOk : String → Bool)
    (disc : Option (List ResourceInfo)) (nssOpt : List String)
    (addonFor : String → Bool) (scriptFor : ResourceInfo → String → List ListRes) :
    (gatherRun get dumpOk disc nssOpt addonFor scriptFor).inspected.Nodup ∧
    ∀ k ∈ (gatherRun get dumpOk disc nssOpt addonFor scriptFor).inspected,
      k ∈ (gatherRun get dumpOk disc nssOpt addonFor scriptFor).resources := by
  have hok : StateOk (prepare get dumpOk disc nssOpt emptyGState).state :=
    prepare_stateOk get dumpOk disc nssOpt stateOk_empty
  have hfin := runUnits_stateOk dumpOk
    ((prepare get dumpOk disc nssOpt emptyGState).queued.map
      (fun q => ⟨q.1, addonFor q.1.name, scriptFor q.1 q.2⟩)) _ hok
  exact ⟨hfin.2.2.1, hfin.2.2.2.2⟩

/-! The work queue (workqueue.go). -/

/-- The `WorkQueue` state relevant to `Queue` and `Close`: whether the
submission channel has been closed (the `closed` flag, written under the
mutex). -/
structure WQState where
  closed : Bool
deriving Repr, DecidableEq

/-- Embeds `NewWorkQueue` (workqueue.go): `make(chan WorkFunc)` — an open,
unbuffered channel. -/
def wqNew : WQState := ⟨false⟩

/-- Outcome of a channel send in Go: on an open unbuffered channel the send
blocks until a worker receives the unit (delivered); on a closed channel the
send panics.  `refusedClosedQueue` is the outcome the spec promises but the
code never produces — no ClosedQueue error exists anywhere in the source. -/
inductive SendOutcome where
  | delivered
  | panicked
  | refusedClosedQueue
deriving Repr, DecidableEq

/-- Embeds `WorkQueue.Queue` (workqueue.go lines 30-32): an unconditional
channel send `q.queue <- work`, with Go's send semantics. -/
def wqQueue (q : WQState) : SendOutcome :=
  if q.closed then SendOutcome.panicked else SendOutcome.delivered

/-- Embeds `WorkQueue.Close` (workqueue.go lines 54-62): under the mutex,
close the channel only when it is not yet closed, then mark it closed. -/
def wqClose (q : WQState) : WQState :=
  if q.closed then q else ⟨true⟩

/-- Counterexample to C6 as stated: submitting to a WorkQueue after Close()
does not fail with a ClosedQueue error — `Queue` is a bare send on the closed
channel, which panics (crashing the process). -/
theorem queue_after_close_counterexample :
    wqQueue (wqClose wqNew) = SendOutcome.panicked ∧
    wqQueue (wqClose wqNew) ≠ SendOutcome.refusedClosedQueue := by
  exact ⟨rfl, by decide⟩

/-- C6 (amended): Close() is idempotent under the internal lock — a second
Close leaves the state unchanged, so the channel is closed exactly once — but
Queue(fn) after Close() does not return a ClosedQueue error and is not
refused: it panics (Go's semantics for a send on a closed channel); the
code's contract is that callers never submit after Close.  Before Close,
Queue delivers the unit to a worker. -/
theorem close_idempotent_queue_after_close_panics :
    (∀ q : WQState, wqClose (wqClose q) = wqClose q) ∧
    wqQueue (wqClose wqNew) = SendOutcome.panicked ∧
    wqQueue wqNew = SendOutcome.delivered := by
  refine ⟨?_, rfl, rfl⟩
  intro q
  cases q with
  | mk c => cases c <;> rfl

/-! Error latching (workqueue.go) and the combined error of Gather
(gather.go). -/

/-- Embeds `WorkQueue.setFirstError` (workqueue.go): set the mutex-guarded
slot only while it is still empty. -/
def setFirstError (slot : Option String) (e : String) : Option String :=
  match slot with
  | some _ => slot
  | none => some e

/-- Embeds the error collection of `WorkQueue.Start`/`Wait` (workqueue.go):
each worker runs its work function and calls `setFirstError` on a non-nil
result; `Wait` returns the slot.  `results` are the work functions' return
values in completion order. -/
def runWorkResults (results : List (Option String)) : Option String :=
  results.foldl
    (fun slot res =>
      match res with
      | some e => setFirstError slot e
      | none => slot)
    none

/-- Embeds the gather work unit queued by `Gatherer.prepare` (gather.go lines
229-232): the closure runs `gatherResources(r, namespace)` and returns nil
unconditionally, whatever failures the unit logged. -/
def gatherUnitWork (r : ResourceInfo) (dumpOk : String → Bool) (hasAddon : Bool)
    (script : List ListRes) (s : GState) : GState × Option String :=
  ((gatherResources r dumpOk hasAddon script s).state, none)

/-- Embeds the error aggregation of `Gatherer.Gather` (gather.go lines
183-188): a combined error wrapping both queue errors is returned iff either
queue latched one. -/
def gatherCombinedError (gErr iErr : Option String) :
    Option (Option String × Option String) :=
  if gErr.isSome || iErr.isSome then some (gErr, iErr) else none

theorem foldl_first_error_some (rest : List (Option String)) (e : String) :
    rest.foldl
      (fun slot res =>
        match res with
        | some e2 => setFirstError slot e2
        | none => slot)
      (some e) = some e := by
  induction rest with
  | nil => rfl
  | cons r rest ih =>
    cases r <;> simpa [setFirstError] using ih

/-- C7 (amended): the WorkQueue's mutex-guarded slot latches the first non-nil
result a work function returns and drops later ones, and Gather() returns a
combined error iff one of the two queues latched an error; but the work
functions actually queued — the gather units of prepare, and the addon
inspect units of logs.go lines 77-89 and rook.go lines 52-55, 64-67, 94-97
and 136-139 — all return nil unconditionally: list, dump and inspect failures
are logged and swallowed inside the unit, never latched, and never surfaced
through Gather()'s combined error. -/
theorem unit_failures_swallowed_not_latched :
    (∀ (r : ResourceInfo) (dumpOk : String → Bool) (hasAddon : Bool)
        (script : List ListRes) (s : GState),
        (gatherUnitWork r dumpOk hasAddon script s).2 = none) ∧
    (∀ results : List (Option String), runWorkResults results = results.findSome? id) ∧
    (∀ gErr iErr : Option String,
        gatherCombinedError gErr iErr = none ↔ (gErr = none ∧ iErr = none)) := by
  refine ⟨fun r dumpOk hasAddon script s => rfl, ?_, ?_⟩
  · intro results
    induction results with
    | nil => rfl
    | cons r rest ih =>
      cases r with
      | none => simpa [runWorkResults, List.findSome?] using ih
      | some e =>
        simp only [runWorkResults, List.foldl_cons, List.findSome?, setFirstError]
        simpa [id] using foldl_first_error_some rest e
  · intro gErr iErr
    cases gErr <;> cases iErr <;> simp [gatherCombinedError]

/-- Counterexample to C7 as stated: a gather unit whose very listing fails —
the loop logs a warning and stops (stop = warned), yet the queued work
function returns nil and Gather()'s combined error is nil: the failure is
neither latched into the first-error slot nor surfaced to the caller. -/
theorem unit_failure_not_surfaced_counterexample :
    (gatherResources podsInfo (fun _ => true) false [ListRes.fail false] emptyGState).stop
        = StopReason.warned ∧
    (gatherUnitWork podsInfo (fun _ => true) false [ListRes.fail false] emptyGState).2
        = none ∧
    gatherCombinedError
        (runWorkResults [(gatherUnitWork podsInfo (fun _ => true) false
          [ListRes.fail false] emptyGState).2]) none = none := by
  refine ⟨by decide, rfl, rfl⟩

/-! Stage ordering of one Gather() run (gather.go, workqueue.go). -/

/-- Time stamps of the observable events of one cluster job with `n` gather
work units: when a worker receives unit `i`, when the `Queue(...)` call for
unit `i` returns inside prepare, when prepare returns, when the gather queue
is closed, when Wait observes it drained, and when the inspect queue is
closed. -/
structure Sched where
  recvTime : Nat → Nat
  queueReturnTime : Nat → Nat
  prepareEndTime : Nat
  closeGatherTime : Nat
  gatherDrainedTime : Nat
  closeInspectTime : Nat

/-- The happens-before facts every real execution satisfies, read off the
code: `NewWorkQueue` makes an unbuffered channel (`make(chan WorkFunc)`,
workqueue.go line 25), so the send inside Queue returns only after a worker
has received the unit; prepare returns only after all of its Queue calls have
returned (gather.go lines 225-236); and Gather (gather.go lines 153-180)
starts both queues, runs prepare, closes the gather queue, waits for it to
drain, and only then closes the inspect queue. -/
def ValidSched (n : Nat) (t : Sched) : Prop :=
  (∀ i, i < n → t.recvTime i < t.queueReturnTime i) ∧
  (∀ i, i < n → t.queueReturnTime i < t.prepareEndTime) ∧
  t.prepareEndTime < t.closeGatherTime ∧
  t.closeGatherTime < t.gatherDrainedTime ∧
  t.gatherDrainedTime < t.closeInspectTime

/-- Which queue a component enqueues onto. -/
inductive QueueId where
  | gatherQ
  | inspectQ
deriving Repr, DecidableEq

/-- Embeds the wiring of `New` (gather.go lines 139-142): the backend handed
to every addon carries `wq: g.inspectQueue`, so addon (inspect-stage) work is
enqueued only onto the inspect queue. -/
def gatherBackendQueue : QueueId := QueueId.inspectQ

/-- A concrete schedule of a run with one gather unit. -/
def demoSched : Sched :=
  ⟨fun _ => 0, fun _ => 1, 2, 3, 4, 5⟩

theorem demoSched_valid : ValidSched 1 demoSched :=
  ⟨fun i _ => Nat.zero_lt_one, fun i _ => Nat.one_lt_two, by decide, by decide, by decide⟩

/-- Counterexample to C9 as stated: a schedule satisfying every ordering the
code guarantees in which a gather worker receives its unit before prepare
completes.  With the unbuffered queue this is forced whenever at least one
unit is queued — Queue's send cannot return until a worker takes the unit —
so "the prepare stage completes before any gather worker sees work" is false
for every run that queues work. -/
theorem prepare_overlap_counterexample :
    ValidSched 1 demoSched ∧ ¬ (demoSched.prepareEndTime < demoSched.recvTime 0) :=
  ⟨demoSched_valid, by decide⟩

/-- C9 (amended): within one cluster job, whenever at least one gather unit is
queued, some gather worker receives work strictly before prepare completes
(prepare completing first is impossible with the unbuffered queue); prepare
completes before the gather queue is closed; the gather queue is fully drained
before the inspect queue is closed; and inspect workers enqueue only onto the
inspect queue, never onto the gather queue. -/
theorem stage_ordering (n : Nat) (t : Sched) (hv : ValidSched n t) (hn : 0 < n) :
    t.recvTime 0 < t.prepareEndTime ∧
    t.prepareEndTime < t.closeGatherTime ∧
    t.gatherDrainedTime < t.closeInspectTime ∧
    gatherBackendQueue = QueueId.inspectQ := by
  obtain ⟨h1, h2, h3, h4, h5⟩ := hv
  exact ⟨Nat.lt_trans (h1 0 hn) (h2 0 hn), h3, h5, rfl⟩

/-- Witness for `stage_ordering` at the concrete one-unit schedule. -/
theorem stage_ordering_witness :
    demoSched.recvTime 0 < demoSched.prepareEndTime ∧
    demoSched.prepareEndTime < demoSched.closeGatherTime ∧
    demoSched.gatherDrainedTime < demoSched.closeInspectTime ∧
    gatherBackendQueue = QueueId.inspectQ :=
  stage_ordering 1 demoSched demoSched_valid (by decide)

end KubectlGather
